import Mathlib

/-!
Shallow embedding of the MTH9815 bond trading system (pricing, market data,
algorithmic execution, trade booking) together with proofs about its
order-book engine, price notation codec, decisioning rule and event backbone.

Conventions of the embedding:
* C++ `double` prices are modelled as `ℚ`.  Every price handled by the claims
  is a small dyadic rational (granularity 1/256), on which binary floating
  point arithmetic is exact, so `ℚ` is a faithful model of the computations
  involved.
* C++ `long` quantities and counters are modelled as `ℤ`.
* `std::map<string, V>` stores are modelled as functions `String → Option V`;
  `erase` followed by `insert` is a pointwise function update.
* Functions that can throw are modelled as `Except SvcError` (or `Option`)
  values; the distinct C++ exception sites get distinct `SvcError` tags.
* Reading an uninitialized local (which the source does in
  `AlgoExecutionService::AlgoExecuteOrder` when the spread is wide) yields an
  indeterminate value in C++; such values are modelled as `Option` fields that
  are `none` exactly when the source never assigned them.
* Dereferencing the `end()` iterator (which the source does in
  `OrderBook::BestBidOffer` on an empty stack) and indexing a `std::vector`
  past its end (which the connectors do on records with too few fields) are
  undefined behavior in C++; the embedding marks them as `none` / an
  `SvcError.outOfRange` failure and the theorems note where this modelling
  choice matters.
-/

namespace TradingSystem

/-- Failure modes of the concrete services.  `notFound` is the
`std::runtime_error("Key not found")` thrown by the map lookups,
`unknownCusip` the `std::invalid_argument` thrown by `QueryProduct` and
`QueryPV01`, `formatError` the `std::invalid_argument` thrown by
`Frac2Price`, `parseError` a `std::stol` / `std::stod` failure, and
`outOfRange` marks an out-of-bounds `std::vector` element access
(undefined behavior in C++, modelled as a failure of the call). -/
inductive SvcError
  | notFound
  | unknownCusip
  | formatError
  | parseError
  | outOfRange
  deriving DecidableEq, Repr

/-! ## Price notation codec (utilities.hpp) -/

/-- Fuel-driven decimal rendering of a natural number, most significant digit
first.  The fuel only makes the recursion structural; `natToDigits` always
supplies enough of it. -/
def natToDigitsAux : ℕ → ℕ → List Char
  | 0, _ => []
  | fuel + 1, n =>
    if n < 10 then [Nat.digitChar n]
    else natToDigitsAux fuel (n / 10) ++ [Nat.digitChar (n % 10)]

/-- Decimal rendering of a natural number, most significant digit first,
as produced by C++ `std::to_string`. -/
def natToDigits (n : ℕ) : List Char :=
  natToDigitsAux (n + 1) n

/-- Decimal rendering of an integer, as produced by C++ `std::to_string`. -/
def intToChars (i : ℤ) : List Char :=
  if i < 0 then '-' :: natToDigits i.natAbs else natToDigits i.toNat

/-- Value of a list of decimal digit characters, accumulator style; `none` as
soon as a non-digit character is met. -/
def digitsVal : List Char → ℕ → Option ℕ
  | [], acc => some acc
  | c :: rest, acc => if c.isDigit then digitsVal rest (acc * 10 + (c.toNat - 48)) else none

/-- Model of `std::stol` / `std::stod` restricted to the unsigned integer
digit strings that the feeds and the encoder produce (the only shapes the
claims exercise): the numeric value of a nonempty all-digit string, `none`
otherwise (`stol`/`stod` throw `std::invalid_argument` when no digits can be
consumed). -/
def parseNat (cs : List Char) : Option ℕ :=
  match cs with
  | [] => none
  | _ :: _ => digitsVal cs 0

/-- Model of `std::string::find('-')`: index of the first dash, `none` for
`npos`. -/
def findDash : List Char → Option ℕ
  | [] => none
  | c :: rest => if c = '-' then some 0 else (findDash rest).map (· + 1)

/-- Body of `Frac2Price` from utilities.hpp over the character list of the
input string: locate the dash, `stod` the integer part, require a fractional
part of exactly 3 characters, replace a trailing plus with the digit 4, and
assemble integer + XY/32 + z/256.  `none` models the
`std::invalid_argument` throws. -/
def frac2PriceChars (cs : List Char) : Option ℚ := do
  let posDash ← findDash cs
  let intPart ← parseNat (cs.take posDash)
  match cs.drop (posDash + 1) with
  | [c1, c2, c3] =>
    let c3 := if c3 = '+' then '4' else c3
    let xy ← parseNat [c1, c2]
    let z ← parseNat [c3]
    some ((intPart : ℚ) + (xy : ℚ) / 32 + (z : ℚ) / 256)
  | _ => none

/-- Decode a fractional-notation price string (utilities.hpp `Frac2Price`). -/
def Frac2Price (s : String) : Option ℚ :=
  frac2PriceChars s.data

/-- Character list of the output of `Price2Frac` from utilities.hpp.  The
C++ truncations `static_cast<int>` agree with `Int.floor` here because the
truncated quantities are nonnegative (`fracpart ∈ [0,1)`), and the C++ `%`
agrees with `Int.emod` on nonnegative operands. -/
def price2FracChars (p : ℚ) : List Char :=
  let intpart : ℤ := ⌊p⌋
  let fracpart : ℚ := p - (intpart : ℚ)
  let xy : ℤ := ⌊fracpart * 32⌋
  let z : ℤ := ⌊fracpart * 256⌋ % 8
  intToChars intpart ++ ['-'] ++
    ((if xy < 10 then ['0'] else []) ++ intToChars xy) ++
    (if z = 4 then ['+'] else intToChars z)

/-- Encode a decimal price into fractional notation (utilities.hpp
`Price2Frac`). -/
def Price2Frac (p : ℚ) : String :=
  ⟨price2FracChars p⟩

/-- Transcription of the validity condition spelled out in the round-trip
claim, to compare the claim against the code: the string contains a dash,
the fractional part after the dash is exactly three characters, the first
two of them are a two-digit number below 32, and the final character is a
digit 0–7 or a plus. -/
def validEncodedPerClaim (s : String) : Prop :=
  ∃ pos, findDash s.data = some pos ∧
    ∃ c1 c2 c3, s.data.drop (pos + 1) = [c1, c2, c3] ∧
      (∃ v, parseNat [c1, c2] = some v ∧ v < 32) ∧
      (c3 = '+' ∨ (c3.isDigit = true ∧ c3.toNat - 48 < 8))

/-- The seven treasury CUSIPs configured in `productConstructors` (and in the
`pv01` table) in utilities.hpp. -/
def knownCusips : List String :=
  ["9128283H1", "9128283L2", "912828M80", "9128283J7", "9128283F5", "912810TW8", "912810RZ3"]

/-- Model of `QueryProduct` from utilities.hpp: products are opaque to the
backbone and identified by their CUSIP, so the product value is modelled by
its identifier; an unknown CUSIP throws `std::invalid_argument`. -/
def QueryProduct (cusip : String) : Except SvcError String :=
  if cusip ∈ knownCusips then .ok cusip else .error .unknownCusip

/-! ## Market data service (marketdataservice.hpp) -/

/-- Side for market data. -/
inductive PricingSide
  | BID
  | OFFER
  deriving DecidableEq, Repr

/-- A market data order with price, quantity, and side. -/
structure Order where
  price : ℚ
  quantity : ℤ
  side : PricingSide
  deriving DecidableEq, Repr

/-- A bid order and an offer order, as returned by `BestBidOffer`. -/
structure BidOffer where
  bidOrder : Order
  offerOrder : Order
  deriving DecidableEq, Repr

/-- Order book with a bid and offer stack; the product is represented by its
identifier. -/
structure OrderBook where
  product : String
  bidStack : List Order
  offerStack : List Order
  deriving DecidableEq, Repr

/-- Model of `std::max_element` with comparator `a.GetPrice() < b.GetPrice()`
on the nonempty range `x :: xs`: the first element of maximal price. -/
def maxByPrice (x : Order) (xs : List Order) : Order :=
  xs.foldl (fun best o => if best.price < o.price then o else best) x

/-- Model of `std::min_element` with the same comparator on `x :: xs`: the
first element of minimal price. -/
def minByPrice (x : Order) (xs : List Order) : Order :=
  xs.foldl (fun best o => if o.price < best.price then o else best) x

/-- The body of `OrderBook::BestBidOffer`: `std::max_element` over the bid
stack and `std::min_element` over the offer stack, both immediately
dereferenced.  On an empty stack the C++ code dereferences the `end()`
iterator — undefined behavior with no defined result and no exception; the
embedding returns `none` in that case. -/
def OrderBook.BestBidOffer (b : OrderBook) : Option BidOffer :=
  match b.bidStack, b.offerStack with
  | bx :: bxs, ox :: oxs => some ⟨maxByPrice bx bxs, minByPrice ox oxs⟩
  | _, _ => none

/-- One step of the `unordered_map<double,long>` accumulation loops in
`MarketDataService::AggregateDepth`: `agg[price] += quantity` when the price
is present, `insert` otherwise.  The map is modelled as an association list
keyed in first-insertion order (the iteration order of the C++
`unordered_map` is unspecified; the claims depend only on the collection of
price/quantity pairs). -/
def aggInsert (price : ℚ) (qty : ℤ) : List (ℚ × ℤ) → List (ℚ × ℤ)
  | [] => [(price, qty)]
  | e :: rest => if e.1 = price then (e.1, e.2 + qty) :: rest else e :: aggInsert price qty rest

/-- One loop iteration of the stack traversal in `AggregateDepth`: feed one
order into the per-price accumulator map. -/
def aggStep (m : List (ℚ × ℤ)) (o : Order) : List (ℚ × ℤ) :=
  aggInsert o.price o.quantity m

/-- The per-price accumulation of a whole stack, as folded by the range-for
loops of `AggregateDepth`. -/
def aggPairs (stack : List Order) : List (ℚ × ℤ) :=
  stack.foldl aggStep []

/-- Rebuild one aggregated stack from the accumulated per-price map, one
`Order` per distinct price carrying the summed quantity. -/
def aggregateStack (side : PricingSide) (stack : List Order) : List Order :=
  (aggPairs stack).map fun e => ⟨e.1, e.2, side⟩

/-- Specification helper: the keys (prices) of an accumulated per-price map,
in entry order. -/
def aggKeys (m : List (ℚ × ℤ)) : List ℚ :=
  m.map Prod.fst

/-- Specification helper: the total quantity recorded for a price in a
per-price map (0 when the price is absent; the sum of all entries at that
price in general). -/
def valAt (p : ℚ) (m : List (ℚ × ℤ)) : ℤ :=
  ((m.filter fun e => decide (e.1 = p)).map Prod.snd).sum

/-- Specification helper: the summed quantity of all orders of a stack at a
given price. -/
def sumQtyAt (p : ℚ) (stack : List Order) : ℤ :=
  ((stack.filter fun o => decide (o.price = p)).map Order.quantity).sum

/-- Effect of `MarketDataService::AggregateDepth` on the order book it reads:
both stacks are grouped by exact price with quantities summed, and the book
is rebuilt from the aggregated stacks (the service writes the result back
into its map under the same key and returns it). -/
def AggregateDepth (b : OrderBook) : OrderBook :=
  ⟨b.product, aggregateStack .BID b.bidStack, aggregateStack .OFFER b.offerStack⟩

/-- The keyed store of `MarketDataService` (`map<string, OrderBook>`). -/
abbrev OrderBookMap := String → Option OrderBook

/-- Pointwise update of the order book store, the effect of
`erase` + `insert` (or of `operator[]` assignment) at one key. -/
def mdUpdate (m : OrderBookMap) (key : String) (b : OrderBook) : OrderBookMap :=
  fun k => if k = key then some b else m k

/-- An order book with empty stacks for a product, as built by
`OrderBook(QueryProduct<T>(key), vector<Order>(), vector<Order>())`. -/
def emptyOrderBook (productId : String) : OrderBook :=
  ⟨productId, [], []⟩

/-- Body of `MarketDataService::GetData`: if the key is absent the service
inserts a fresh empty book for the product (constructed via `QueryProduct`,
which throws on an unknown CUSIP) and returns it; it never reports a
missing key.  Returns the possibly-extended store together with the book. -/
def MarketDataService.GetData (m : OrderBookMap) (key : String) :
    Except SvcError (OrderBookMap × OrderBook) :=
  match m key with
  | some b => .ok (m, b)
  | none => do
    let pid ← QueryProduct key
    .ok (mdUpdate m key (emptyOrderBook pid), emptyOrderBook pid)

/-- Body of `MarketDataService::OnMessage`: erase any existing book under the
product key, insert the new one, then call `ProcessAdd` on every listener
with the book.  The second component is the sequence of payloads delivered
to each listener. -/
def MarketDataService.OnMessage (m : OrderBookMap) (book : OrderBook) :
    OrderBookMap × List OrderBook :=
  (mdUpdate m book.product book, [book])

/-- One parsed line of the order-book feed: timestamp, product identifier and
`bookDepth` levels of (bid price, bid size) and (ask price, ask size).  The
numeric fields carry the values produced by `Frac2Price` / `stol` on the
comma-split blocks. -/
structure MarketDataRecord where
  timestamp : String
  product : String
  levels : List ((ℚ × ℤ) × (ℚ × ℤ))
  deriving DecidableEq, Repr

/-- One iteration of the while-loop of `MarketDataConnector::Subscribe` on an
already-parsed record: fetch the book through `GetData` (which creates an
empty book for a first-seen product), push the record's per-level bid and
ask orders onto the existing stacks, aggregate the book in place via
`AggregateDepth`, and hand the aggregated book to `OnMessage`.  Returns the
updated store and the payloads delivered to listeners. -/
def MarketDataConnector.SubscribeStep (m : OrderBookMap) (r : MarketDataRecord) :
    Except SvcError (OrderBookMap × List OrderBook) := do
  let (m1, book) ← MarketDataService.GetData m r.product
  let book1 : OrderBook :=
    { book with
      bidStack := book.bidStack ++ r.levels.map fun lv => ⟨lv.1.1, lv.1.2, .BID⟩,
      offerStack := book.offerStack ++ r.levels.map fun lv => ⟨lv.2.1, lv.2.2, .OFFER⟩ }
  let book2 := AggregateDepth book1
  let m2 := mdUpdate m1 r.product book2
  .ok (MarketDataService.OnMessage m2 book2)

/-! ## Algo execution service (algoexecutionservice.hpp) -/

/-- Order types for an execution order. -/
inductive OrderType
  | FOK
  | IOC
  | MARKET
  | LIMIT
  | STOP
  deriving DecidableEq, Repr

/-- Markets an execution order can be placed on. -/
inductive Market
  | BROKERTEC
  | ESPEED
  | CME
  deriving DecidableEq, Repr

/-- An execution order that can be placed on an exchange.  The `side`,
`price` and `visibleQuantity` fields are copied from locals that
`AlgoExecuteOrder` leaves uninitialized when the spread is wide; `none`
models such an indeterminate value. -/
structure ExecutionOrder where
  product : String
  side : Option PricingSide
  orderId : String
  orderType : OrderType
  price : Option ℚ
  visibleQuantity : Option ℤ
  hiddenQuantity : ℤ
  parentOrderId : String
  isChildOrder : Bool
  deriving DecidableEq, Repr

/-- An execution order bound for a particular market. -/
structure AlgoExecution where
  executionOrder : ExecutionOrder
  market : Market
  deriving DecidableEq, Repr

/-- Mutable state of `AlgoExecutionService`: the keyed store and the
alternation counter (a C++ `long`, initialized to 0 and only ever
incremented). -/
structure AlgoExecutionServiceState where
  algoExecutionData : String → Option AlgoExecution
  count : ℤ

/-- Body of `AlgoExecutionService::GetData`: map lookup, throwing
`Key not found` when absent. -/
def AlgoExecutionService.GetData (st : AlgoExecutionServiceState) (key : String) :
    Except SvcError AlgoExecution :=
  match st.algoExecutionData key with
  | some v => .ok v
  | none => .error .notFound

/-- Body of `AlgoExecutionService::AlgoExecuteOrder`.  The random
identifiers are passed in as parameters.  `BestBidOffer` is taken on the
incoming book (undefined behavior — modelled as `none` — if a stack is
empty).  The locals `side`, `price` and `quantity` are assigned only inside
the spread guard; when the spread exceeds 1/128 they stay uninitialized,
which the embedding records as a `none` triple.  There is no early return:
the counter is bumped, an execution order is built from the (possibly
indeterminate) locals with type MARKET, hidden quantity 0 and
`isChildOrder = false`, the keyed store is erased/inserted at the product
key, and every listener receives `ProcessAdd` with the new record.  The
second result component is the payload list delivered to listeners. -/
def AlgoExecutionService.AlgoExecuteOrder (st : AlgoExecutionServiceState)
    (book : OrderBook) (orderId parentOrderId : String) :
    Option (AlgoExecutionServiceState × List AlgoExecution) :=
  match book.BestBidOffer with
  | none => none
  | some bidOffer =>
    let spq : Option (PricingSide × ℚ × ℤ) :=
      if bidOffer.offerOrder.price - bidOffer.bidOrder.price ≤ 1 / 128 then
        if st.count % 2 = 0 then
          some (.BID, bidOffer.offerOrder.price, bidOffer.bidOrder.quantity)
        else
          some (.OFFER, bidOffer.bidOrder.price, bidOffer.offerOrder.quantity)
      else none
    let algoExecution : AlgoExecution :=
      ⟨⟨book.product, spq.map (·.1), orderId, .MARKET, spq.map (·.2.1),
        spq.map (·.2.2), 0, parentOrderId, false⟩, .BROKERTEC⟩
    some
      ({ algoExecutionData := fun k =>
           if k = book.product then some algoExecution else st.algoExecutionData k,
         count := st.count + 1 },
       [algoExecution])

/-! ## Trade booking service (tradebookingservice.hpp) -/

/-- Trade sides. -/
inductive Side
  | BUY
  | SELL
  deriving DecidableEq, Repr

/-- Trade object with a price, side, and quantity on a particular book.  The
`price`, `quantity` and `side` fields are `Option`-valued because the trades
built by `TradeBookingServiceListener::ProcessAdd` copy fields of an
execution order that may be indeterminate; trades parsed from the feed
always carry `some` values. -/
structure Trade where
  product : String
  tradeId : String
  price : Option ℚ
  book : String
  quantity : Option ℤ
  side : Option Side
  deriving DecidableEq, Repr

/-- The keyed store of `TradeBookingService` (`map<string, Trade>`, keyed by
trade id). -/
abbrev TradeMap := String → Option Trade

/-- Body of `TradeBookingService::GetData`: map lookup, throwing
`Key not found` when absent. -/
def TradeBookingService.GetData (m : TradeMap) (key : String) : Except SvcError Trade :=
  match m key with
  | some v => .ok v
  | none => .error .notFound

/-- Body of `TradeBookingService::OnMessage`: upsert the trade under its
trade id, then call `ProcessAdd` on every listener with the trade.  The
second component is the payload list delivered to listeners. -/
def TradeBookingService.OnMessage (m : TradeMap) (t : Trade) : TradeMap × List Trade :=
  (fun k => if k = t.tradeId then some t else m k, [t])

/-- Body of `TradeBookingService::BookTrade`: call `ProcessAdd` on every
listener with the trade and nothing else — the keyed store is not touched.
The second component is the payload list delivered to listeners. -/
def TradeBookingService.BookTrade (m : TradeMap) (t : Trade) : TradeMap × List Trade :=
  (m, [t])

/-- Book rotation of `TradeBookingServiceListener::ProcessAdd`
(`switch (count++ % 3)`), for the nonnegative counter values that occur. -/
def tradeBookOf (count : ℤ) : String :=
  if count % 3 = 0 then "TRSY1" else if count % 3 = 1 then "TRSY2" else "TRSY3"

/-- Body of `TradeBookingServiceListener::ProcessAdd`: turn an execution
order into a trade (trade id = order id, total quantity = visible + hidden,
BID ↦ BUY else SELL, book rotating over TRSY1..3) and publish it through
`BookTrade`.  Returns the `BookTrade` result and the incremented listener
counter. -/
def TradeBookingServiceListener.ProcessAdd (m : TradeMap) (count : ℤ)
    (order : ExecutionOrder) : (TradeMap × List Trade) × ℤ :=
  let totalQuantity := order.visibleQuantity.map (· + order.hiddenQuantity)
  let tradeSide := order.side.map fun s => if s = .BID then Side.BUY else Side.SELL
  let t : Trade :=
    ⟨order.product, order.orderId, order.price, tradeBookOf count, totalQuantity, tradeSide⟩
  (TradeBookingService.BookTrade m t, count + 1)

/-- Model of `std::vector<std::string>::operator[]` on the comma-split
tokens of a record: in-range access yields the token; indexing past the end
is undefined behavior in C++, modelled as an `outOfRange` failure of the
enclosing call. -/
def listGet (l : List String) (i : ℕ) : Except SvcError String :=
  match l.get? i with
  | some s => .ok s
  | none => .error .outOfRange

/-- Except-valued wrapper of `Frac2Price` (the C++ function throws
`std::invalid_argument` on a malformed fraction string). -/
def Frac2PriceE (s : String) : Except SvcError ℚ :=
  match Frac2Price s with
  | some p => .ok p
  | none => .error .formatError

/-- Except-valued wrapper of the `std::stol` model. -/
def parseLong (s : String) : Except SvcError ℤ :=
  match parseNat s.data with
  | some n => .ok (n : ℤ)
  | none => .error .parseError

/-- Parsing of one comma-split trade record by the loop body of
`TradeBookingConnector::Subscribe`, with the field accesses in source
order: product id, `QueryProduct`, trade id, `Frac2Price` price, book,
`stol` quantity, and side (`"BUY"` compares to BUY, anything else is
SELL). -/
def parseTradeRecord (tokens : List String) : Except SvcError Trade := do
  let productId ← listGet tokens 0
  let product ← QueryProduct productId
  let tradeId ← listGet tokens 1
  let price ← Frac2PriceE (← listGet tokens 2)
  let book ← listGet tokens 3
  let quantity ← parseLong (← listGet tokens 4)
  let sideTok ← listGet tokens 5
  let side := if sideTok = "BUY" then Side.BUY else Side.SELL
  .ok ⟨product, tradeId, some price, book, some quantity, some side⟩

/-- Body of `TradeBookingConnector::Subscribe` over the comma-split lines of
the input (this connector reads every line; it has no header skip): parse
each record in order and deliver it through `OnMessage`; the first failing
record aborts the whole call with its error, leaving the state already built
from the preceding records in place.  Returns the final store, the
concatenated listener payloads, and the error that aborted the call (if
any). -/
def TradeBookingConnector.Subscribe (m : TradeMap) :
    List (List String) → (TradeMap × List Trade) × Option SvcError
  | [] => ((m, []), none)
  | tokens :: rest =>
    match parseTradeRecord tokens with
    | .error e => ((m, []), some e)
    | .ok t =>
      let (m1, pubs) := TradeBookingService.OnMessage m t
      let ((m2, pubs2), err) := TradeBookingConnector.Subscribe m1 rest
      ((m2, pubs ++ pubs2), err)

/-! ## Pricing service (pricingservice.hpp) -/

/-- A price object consisting of mid and bid/offer spread, for a product
represented by its identifier. -/
structure Price where
  product : String
  mid : ℚ
  bidOfferSpread : ℚ
  deriving DecidableEq, Repr

/-- The keyed store of `PricingService` (`map<string, Price>`). -/
abbrev PriceMap := String → Option Price

/-- Body of `PricingService::GetData`: map lookup, throwing `Key not found`
when absent. -/
def PricingService.GetData (m : PriceMap) (key : String) : Except SvcError Price :=
  match m key with
  | some v => .ok v
  | none => .error .notFound

/-- Body of `PricingService::OnMessage`: erase/insert the price under its
product key, then `ProcessAdd` every listener.  The second component is the
payload list delivered to listeners. -/
def PricingService.OnMessage (m : PriceMap) (p : Price) : PriceMap × List Price :=
  (fun k => if k = p.product then some p else m k, [p])

/-- Parsing of one comma-split price record by the loop body of
`PricingConnector::Subscribe`, with the field accesses in source order:
timestamp, product id, bid and ask through `Frac2Price`, then mid and
spread, then `QueryProduct`. -/
def parsePriceRecord (tokens : List String) : Except SvcError Price := do
  let _timestamp ← listGet tokens 0
  let productId ← listGet tokens 1
  let bid ← Frac2PriceE (← listGet tokens 2)
  let ask ← Frac2PriceE (← listGet tokens 3)
  let mid := (bid + ask) / 2
  let spread := ask - bid
  let product ← QueryProduct productId
  .ok ⟨product, mid, spread⟩

/-- The line-processing loop of `PricingConnector::Subscribe` after the
header skip: parse each record in order and deliver it through `OnMessage`;
the first failing record aborts the whole call with its error, keeping the
state built from the preceding records. -/
def pricingSubscribeLoop (m : PriceMap) :
    List (List String) → (PriceMap × List Price) × Option SvcError
  | [] => ((m, []), none)
  | tokens :: rest =>
    match parsePriceRecord tokens with
    | .error e => ((m, []), some e)
    | .ok p =>
      let (m1, pubs) := PricingService.OnMessage m p
      let ((m2, pubs2), err) := pricingSubscribeLoop m1 rest
      ((m2, pubs ++ pubs2), err)

/-- Body of `PricingConnector::Subscribe`: one `getline` discards the header
line, then every remaining line is processed in order. -/
def PricingConnector.Subscribe (m : PriceMap) (lines : List (List String)) :
    (PriceMap × List Price) × Option SvcError :=
  pricingSubscribeLoop m (lines.drop 1)

/-! ## Lemmas: decimal digit rendering and parsing -/

theorem digitChar_isDigit {n : ℕ} (h : n < 10) : (Nat.digitChar n).isDigit = true := by
  interval_cases n <;> decide

theorem digitChar_toNat {n : ℕ} (h : n < 10) : (Nat.digitChar n).toNat - 48 = n := by
  interval_cases n <;> decide

theorem digitChar_ne_dash {n : ℕ} (h : n < 10) : Nat.digitChar n ≠ '-' := by
  interval_cases n <;> decide

theorem digitChar_ne_plus {n : ℕ} (h : n < 10) : Nat.digitChar n ≠ '+' := by
  interval_cases n <;> decide

theorem digitsVal_append (xs ys : List Char) (acc : ℕ) :
    digitsVal (xs ++ ys) acc = (digitsVal xs acc).bind fun v => digitsVal ys v := by
  induction xs generalizing acc with
  | nil => simp [digitsVal]
  | cons c rest ih =>
    simp only [List.cons_append, digitsVal]
    by_cases hc : c.isDigit
    · simp [hc, ih]
    · simp [hc]

theorem natToDigitsAux_small {fuel n : ℕ} (hf : n < fuel) (h : n < 10) :
    natToDigitsAux fuel n = [Nat.digitChar n] := by
  cases fuel with
  | zero => omega
  | succ f => simp [natToDigitsAux, h]

theorem natToDigitsAux_ne_nil {fuel n : ℕ} (hf : n < fuel) : natToDigitsAux fuel n ≠ [] := by
  cases fuel with
  | zero => omega
  | succ f =>
    by_cases h : n < 10
    · simp [natToDigitsAux, h]
    · simp [natToDigitsAux, h]

theorem digitsVal_natToDigitsAux {fuel : ℕ} :
    ∀ {n : ℕ}, n < fuel → ∀ acc : ℕ,
      digitsVal (natToDigitsAux fuel n) acc =
        some (acc * 10 ^ (natToDigitsAux fuel n).length + n) := by
  induction fuel with
  | zero => omega
  | succ f ih =>
    intro n hf acc
    by_cases h : n < 10
    · simp [natToDigitsAux, h, digitsVal, digitChar_isDigit h, digitChar_toNat h]
    · have hrec : n / 10 < f := by omega
      have h10 : n % 10 < 10 := Nat.mod_lt _ (by omega)
      simp only [natToDigitsAux, if_neg h]
      rw [digitsVal_append, ih hrec]
      simp only [Option.some_bind, digitsVal, digitChar_isDigit h10, if_pos,
        digitChar_toNat h10, List.length_append, List.length_singleton]
      rw [pow_succ]
      generalize (10 : ℕ) ^ (natToDigitsAux f (n / 10)).length = A
      refine congrArg some ?_
      calc (acc * A + n / 10) * 10 + (n % 10)
          = acc * (A * 10) + (10 * (n / 10) + n % 10) := by ring
        _ = acc * (A * 10) + n := by rw [Nat.div_add_mod]

theorem parseNat_natToDigits (n : ℕ) : parseNat (natToDigits n) = some n := by
  have hf : n < n + 1 := by omega
  have hval := digitsVal_natToDigitsAux hf 0
  unfold natToDigits
  cases hcs : natToDigitsAux (n + 1) n with
  | nil => exact absurd hcs (natToDigitsAux_ne_nil hf)
  | cons c cs =>
    rw [hcs] at hval
    simpa [parseNat] using hval

theorem natToDigitsAux_isDigit {fuel : ℕ} :
    ∀ {n : ℕ}, n < fuel → ∀ c ∈ natToDigitsAux fuel n, c.isDigit = true := by
  induction fuel with
  | zero => omega
  | succ f ih =>
    intro n hf c hc
    by_cases h : n < 10
    · rw [natToDigitsAux_small hf h] at hc
      simp at hc
      exact hc ▸ digitChar_isDigit h
    · have hrec : n / 10 < f := by omega
      have h10 : n % 10 < 10 := Nat.mod_lt _ (by omega)
      simp only [natToDigitsAux, if_neg h, List.mem_append, List.mem_singleton] at hc
      rcases hc with hc | hc
      · exact ih hrec c hc
      · exact hc ▸ digitChar_isDigit h10

theorem isDigit_ne_dash {c : Char} (h : c.isDigit = true) : c ≠ '-' := by
  intro he
  rw [he] at h
  exact absurd h (by decide)

theorem natToDigits_one {n : ℕ} (h : n < 10) : natToDigits n = [Nat.digitChar n] :=
  natToDigitsAux_small (by omega) h

theorem natToDigits_two {n : ℕ} (h1 : 10 ≤ n) (h2 : n < 100) :
    natToDigits n = [Nat.digitChar (n / 10), Nat.digitChar (n % 10)] := by
  unfold natToDigits
  have h : ¬ n < 10 := by omega
  simp only [natToDigitsAux, if_neg h]
  rw [natToDigitsAux_small (show n / 10 < n by omega) (by omega)]
  rfl

theorem findDash_append (xs ys : List Char) (hxs : ∀ c ∈ xs, c ≠ '-') :
    findDash (xs ++ '-' :: ys) = some xs.length := by
  induction xs with
  | nil => simp [findDash]
  | cons c rest ih =>
    have hc : c ≠ '-' := hxs c (List.mem_cons_self c rest)
    have hrest : ∀ d ∈ rest, d ≠ '-' := fun d hd => hxs d (List.mem_cons_of_mem c hd)
    simp [findDash, hc, ih hrest]

theorem drop_append_cons (xs : List Char) (y : Char) (ys : List Char) :
    (xs ++ y :: ys).drop (xs.length + 1) = ys := by
  induction xs with
  | nil => simp
  | cons c rest ih => simp [ih]

theorem parseNat_two_digits {a b : ℕ} (ha : a < 10) (hb : b < 10) :
    parseNat [Nat.digitChar a, Nat.digitChar b] = some (a * 10 + b) := by
  simp [parseNat, digitsVal, digitChar_isDigit ha, digitChar_isDigit hb,
    digitChar_toNat ha, digitChar_toNat hb]

theorem parseNat_one_digit {a : ℕ} (ha : a < 10) :
    parseNat [Nat.digitChar a] = some a := by
  simp [parseNat, digitsVal, digitChar_isDigit ha, digitChar_toNat ha]

theorem parseNat_pad {b : ℕ} (hb : b < 10) :
    parseNat ['0', Nat.digitChar b] = some b := by
  simp [parseNat, digitsVal, digitChar_isDigit hb, digitChar_toNat hb]

/-! ## Lemmas: the price notation codec -/

theorem frac2Price_price2Frac (n : ℕ) :
    Frac2Price (Price2Frac ((n : ℚ) / 256)) = some ((n : ℚ) / 256) := by
  set I : ℕ := n / 256 with hIdef
  set k : ℕ := n % 256 with hkdef
  set xy : ℕ := k / 8 with hxydef
  set z : ℕ := k % 8 with hzdef
  have hk256 : k < 256 := Nat.mod_lt _ (by omega)
  have hxy32 : xy < 32 := by omega
  have hz8 : z < 8 := by omega
  have hI : ⌊(n : ℚ)/256⌋ = ((I : ℕ) : ℤ) := by
    rw [Int.floor_eq_iff]
    constructor
    · rw [le_div_iff₀ (by norm_num : (0:ℚ) < 256)]
      exact_mod_cast (show I * 256 ≤ n by omega)
    · rw [div_lt_iff₀ (by norm_num : (0:ℚ) < 256)]
      push_cast
      exact_mod_cast (show (n : ℚ) < (I + 1) * 256 by exact_mod_cast (show n < (I+1)*256 by omega))
  have hfrac : (n : ℚ)/256 - (((I : ℕ) : ℤ) : ℚ) = (k : ℚ)/256 := by
    have hn : (n : ℚ) = 256 * (I : ℚ) + (k : ℚ) := by exact_mod_cast (show n = 256*I + k by omega)
    push_cast
    rw [hn]
    ring
  have hxyf : ⌊((k : ℚ)/256) * 32⌋ = ((xy : ℕ) : ℤ) := by
    have he : ((k : ℚ)/256) * 32 = (k : ℚ)/8 := by ring
    rw [he, Int.floor_eq_iff]
    constructor
    · rw [le_div_iff₀ (by norm_num : (0:ℚ) < 8)]
      exact_mod_cast (show xy * 8 ≤ n % 256 by omega)
    · rw [div_lt_iff₀ (by norm_num : (0:ℚ) < 8)]
      push_cast
      exact_mod_cast (show (k : ℚ) < (xy + 1) * 8 by exact_mod_cast (show k < (xy+1)*8 by omega))
  have hzf : ⌊((k : ℚ)/256) * 256⌋ = ((k : ℕ) : ℤ) := by
    have he : ((k : ℚ)/256) * 256 = (k : ℚ) := by ring
    rw [he, Int.floor_natCast]
  have hzmod : ((k : ℕ) : ℤ) % 8 = ((z : ℕ) : ℤ) := by omega
  have hInonneg : ¬ (((I : ℕ) : ℤ) < 0) := by omega
  have harith : ((I : ℕ) : ℚ) + ((xy : ℕ) : ℚ)/32 + ((z : ℕ) : ℚ)/256 = (n : ℚ)/256 := by
    have hn : n = 256*I + 8*xy + z := by omega
    rw [hn]
    push_cast
    ring
  have hdigits : ∀ c ∈ natToDigits I, c ≠ '-' := fun c hc =>
    isDigit_ne_dash (natToDigitsAux_isDigit (by omega) c hc)
  simp only [Price2Frac, Frac2Price]
  show frac2PriceChars (price2FracChars ((n : ℚ)/256)) = _
  simp only [price2FracChars, hI, hfrac, hxyf, hzf, hzmod, intToChars, hInonneg, if_false,
    Int.toNat_natCast]
  have hxyNonneg : ¬ (((xy : ℕ) : ℤ) < 0) := by omega
  have hzNonneg : ¬ (((z : ℕ) : ℤ) < 0) := by omega
  simp only [hxyNonneg, hzNonneg, if_false, Int.toNat_natCast, List.append_assoc,
    List.singleton_append]
  by_cases hxy10 : xy < 10
  · have hxy10c : ((xy : ℕ) : ℤ) < 10 := by omega
    rw [if_pos hxy10c, natToDigits_one hxy10]
    by_cases hz4 : z = 4
    · have hz4c : ((z : ℕ) : ℤ) = 4 := by omega
      rw [if_pos hz4c]
      simp only [List.cons_append, List.nil_append, frac2PriceChars,
        findDash_append _ _ hdigits, Option.bind_eq_bind, Option.some_bind,
        List.take_left, parseNat_natToDigits, drop_append_cons]
      rw [parseNat_pad hxy10]
      simp only [if_true, show parseNat ['4'] = some 4 from by decide, Option.some_bind,
        Option.bind_eq_bind]
      rw [show (4 : ℕ) = z from hz4.symm]
      exact congrArg some harith
    · have hz4c : ¬ (((z : ℕ) : ℤ) = 4) := by omega
      rw [if_neg hz4c, natToDigits_one (show z < 10 by omega)]
      have hplus : ¬ (Nat.digitChar z = '+') := digitChar_ne_plus (by omega)
      simp only [List.cons_append, List.nil_append, frac2PriceChars,
        findDash_append _ _ hdigits, Option.bind_eq_bind, Option.some_bind,
        List.take_left, parseNat_natToDigits, drop_append_cons]
      rw [parseNat_pad hxy10]
      rw [if_neg hplus]
      rw [parseNat_one_digit (show z < 10 by omega)]
      simp only [Option.some_bind]
      exact congrArg some harith
  · have hxy10c : ¬ (((xy : ℕ) : ℤ) < 10) := by omega
    rw [if_neg hxy10c, @natToDigits_two xy (by omega) (by omega)]
    have hq : (xy / 10) * 10 + xy % 10 = xy := by omega
    by_cases hz4 : z = 4
    · have hz4c : ((z : ℕ) : ℤ) = 4 := by omega
      rw [if_pos hz4c]
      simp only [List.cons_append, List.nil_append, frac2PriceChars,
        findDash_append _ _ hdigits, Option.bind_eq_bind, Option.some_bind,
        List.take_left, parseNat_natToDigits, drop_append_cons]
      rw [parseNat_two_digits (by omega) (by omega), hq]
      simp only [if_true, show parseNat ['4'] = some 4 from by decide, Option.some_bind,
        Option.bind_eq_bind]
      rw [show (4 : ℕ) = z from hz4.symm]
      exact congrArg some harith
    · have hz4c : ¬ (((z : ℕ) : ℤ) = 4) := by omega
      rw [if_neg hz4c, natToDigits_one (show z < 10 by omega)]
      have hplus : ¬ (Nat.digitChar z = '+') := digitChar_ne_plus (by omega)
      simp only [List.cons_append, List.nil_append, frac2PriceChars,
        findDash_append _ _ hdigits, Option.bind_eq_bind, Option.some_bind,
        List.take_left, parseNat_natToDigits, drop_append_cons]
      rw [parseNat_two_digits (by omega) (by omega), hq]
      rw [if_neg hplus]
      rw [parseNat_one_digit (show z < 10 by omega)]
      simp only [Option.some_bind]
      exact congrArg some harith

theorem frac2Price_99164 : Frac2Price "99-164" = some (6369/64) := by
  have h1 : "99-164".data = ['9', '9', '-', '1', '6', '4'] := rfl
  have hfind : findDash ['9', '9', '-', '1', '6', '4'] = some 2 := by decide
  have hp1 : parseNat ['9', '9'] = some 99 := by decide
  have hp2 : parseNat ['1', '6'] = some 16 := by decide
  have hp3 : parseNat ['4'] = some 4 := by decide
  simp only [Frac2Price, h1, frac2PriceChars, hfind, List.take, List.drop, Option.bind_eq_bind,
    Option.some_bind, hp1, hp2, hp3]
  norm_num [hp3]

theorem price2Frac_6369 : Price2Frac (6369/64) = "99-16+" := by
  refine congrArg String.mk ?_
  have hfl : ⌊(6369 : ℚ)/64⌋ = (99 : ℤ) := by norm_num [Int.floor_eq_iff]
  have hxy : ⌊((6369 : ℚ)/64 - ((99 : ℤ) : ℚ)) * 32⌋ = (16 : ℤ) := by
    norm_num [Int.floor_eq_iff]
  have hz : ⌊((6369 : ℚ)/64 - ((99 : ℤ) : ℚ)) * 256⌋ = (132 : ℤ) := by
    norm_num [Int.floor_eq_iff]
  simp only [price2FracChars, hfl, hxy, hz]
  decide

/-- C4, counterexample: the string "99-164" meets every validity condition
the claim lists (dash present, two-digit 32nds part 16 < 32, final
character the digit 4), yet encoding its decoded value yields "99-16+",
not "99-164" — the decoder accepts a trailing digit 4 but the encoder
always renders the 4/256 residue as a plus, so the claimed round-trip
fails on it. -/
theorem c4_encode_decode_counterexample :
    validEncodedPerClaim "99-164" ∧
    (Frac2Price "99-164").map Price2Frac = some "99-16+" ∧
    (Frac2Price "99-164").map Price2Frac ≠ some "99-164" := by
  refine ⟨⟨2, by decide, '1', '6', '4', by decide, ⟨16, by decide, by decide⟩,
    Or.inr (by decide)⟩, ?_, ?_⟩
  · rw [frac2Price_99164]
    rw [Option.map_some']
    exact congrArg some price2Frac_6369
  · rw [frac2Price_99164]
    rw [Option.map_some', price2Frac_6369]
    decide

/-- C4, amended: the encode-after-decode round-trip holds for exactly the
strings the encoder can produce (the spec's own "for all values produced by
the encoder"): for every nonnegative price p at 1/256 granularity,
decoding the encoding returns p, and consequently every encoder output
string round-trips through the decoder.  The original claim fails only
because its validity class also admits a trailing digit 4, which the
encoder renders as a plus (see the counterexample). -/
theorem c4_encode_decode_roundtrip :
    (∀ p : ℚ, 0 ≤ p → (∃ n : ℕ, p = (n : ℚ) / 256) → Frac2Price (Price2Frac p) = some p) ∧
    (∀ s : String, (∃ n : ℕ, s = Price2Frac ((n : ℚ) / 256)) →
      (Frac2Price s).map Price2Frac = some s) := by
  constructor
  · rintro p hp0 ⟨n, rfl⟩
    exact frac2Price_price2Frac n
  · rintro s ⟨n, rfl⟩
    rw [frac2Price_price2Frac n]
    simp

/-- C4, witness: the round-trip theorem applied at the concrete price
6369/64 = 25476/256 (the decoded value of "99-16+"). -/
theorem c4_encode_decode_roundtrip_witness :
    Frac2Price (Price2Frac ((6369 : ℚ)/64)) = some ((6369 : ℚ)/64) ∧
    (Frac2Price (Price2Frac ((25476 : ℚ)/256))).map Price2Frac =
      some (Price2Frac ((25476 : ℚ)/256)) :=
  ⟨c4_encode_decode_roundtrip.1 _ (by norm_num) ⟨25476, by norm_num⟩,
   c4_encode_decode_roundtrip.2 _ ⟨25476, rfl⟩⟩

/-! ## Lemmas: best bid / offer selection -/

theorem maxByPrice_spec (xs : List Order) :
    ∀ x : Order, x.price ≤ (maxByPrice x xs).price ∧
      ∀ o ∈ xs, o.price ≤ (maxByPrice x xs).price := by
  induction xs with
  | nil =>
    intro x
    exact ⟨le_refl _, fun o ho => absurd ho (List.not_mem_nil o)⟩
  | cons y ys ih =>
    intro x
    obtain ⟨h1, h2⟩ := ih (if x.price < y.price then y else x)
    have hx : x.price ≤ (if x.price < y.price then y else x).price := by
      by_cases h : x.price < y.price
      · rw [if_pos h]; exact le_of_lt h
      · rw [if_neg h]
    have hy : y.price ≤ (if x.price < y.price then y else x).price := by
      by_cases h : x.price < y.price
      · rw [if_pos h]
      · rw [if_neg h]; exact le_of_not_lt h
    refine ⟨hx.trans h1, fun o ho => ?_⟩
    rcases List.mem_cons.mp ho with rfl | ho
    · exact hy.trans h1
    · exact h2 o ho

theorem minByPrice_spec (xs : List Order) :
    ∀ x : Order, (minByPrice x xs).price ≤ x.price ∧
      ∀ o ∈ xs, (minByPrice x xs).price ≤ o.price := by
  induction xs with
  | nil =>
    intro x
    exact ⟨le_refl _, fun o ho => absurd ho (List.not_mem_nil o)⟩
  | cons y ys ih =>
    intro x
    obtain ⟨h1, h2⟩ := ih (if y.price < x.price then y else x)
    have hx : (if y.price < x.price then y else x).price ≤ x.price := by
      by_cases h : y.price < x.price
      · rw [if_pos h]; exact le_of_lt h
      · rw [if_neg h]
    have hy : (if y.price < x.price then y else x).price ≤ y.price := by
      by_cases h : y.price < x.price
      · rw [if_pos h]
      · rw [if_neg h]; exact le_of_not_lt h
    refine ⟨h1.trans hx, fun o ho => ?_⟩
    rcases List.mem_cons.mp ho with rfl | ho
    · exact h1.trans hy
    · exact h2 o ho

/-- C7: whenever `BestBidOffer` returns a pair (both stacks nonempty), the
returned bid is a maximal-price bid and the returned offer is a
minimal-price offer: every order of the bid stack has price at most the
returned bid price, and every order of the offer stack has price at least
the returned offer price. -/
theorem c7_best_bid_offer_extremal (b : OrderBook) (bo : BidOffer)
    (h : b.BestBidOffer = some bo) :
    (∀ o ∈ b.bidStack, o.price ≤ bo.bidOrder.price) ∧
    (∀ o ∈ b.offerStack, bo.offerOrder.price ≤ o.price) := by
  rcases b with ⟨pid, bids, offers⟩
  cases bids with
  | nil => simp [OrderBook.BestBidOffer] at h
  | cons bx bxs =>
    cases offers with
    | nil => simp [OrderBook.BestBidOffer] at h
    | cons ox oxs =>
      have hbo : bo = ⟨maxByPrice bx bxs, minByPrice ox oxs⟩ := by
        simpa [OrderBook.BestBidOffer] using h.symm
      subst hbo
      constructor
      · intro o ho
        rcases List.mem_cons.mp ho with rfl | ho
        · exact (maxByPrice_spec bxs o).1
        · exact (maxByPrice_spec bxs bx).2 o ho
      · intro o ho
        rcases List.mem_cons.mp ho with rfl | ho
        · exact (minByPrice_spec oxs o).1
        · exact (minByPrice_spec oxs ox).2 o ho

/-- C7, witness: the extremality theorem applied to a concrete two-level
book. -/
theorem c7_best_bid_offer_extremal_witness :
    (∀ o ∈ (OrderBook.mk "9128283H1" [⟨99, 10, .BID⟩, ⟨100, 20, .BID⟩]
        [⟨101, 5, .OFFER⟩, ⟨102, 7, .OFFER⟩]).bidStack, o.price ≤ (100 : ℚ)) ∧
    (∀ o ∈ (OrderBook.mk "9128283H1" [⟨99, 10, .BID⟩, ⟨100, 20, .BID⟩]
        [⟨101, 5, .OFFER⟩, ⟨102, 7, .OFFER⟩]).offerStack, (101 : ℚ) ≤ o.price) :=
  c7_best_bid_offer_extremal
    (OrderBook.mk "9128283H1" [⟨99, 10, .BID⟩, ⟨100, 20, .BID⟩]
      [⟨101, 5, .OFFER⟩, ⟨102, 7, .OFFER⟩])
    ⟨⟨100, 20, .BID⟩, ⟨101, 5, .OFFER⟩⟩ (by decide)

/-- C3 (code bug shown on the failing inputs): on a book with an empty bid
or offer stack, `BestBidOffer` does not produce any reported, recoverable
EmptyBook failure — the source calls `std::max_element` / `std::min_element`
on the empty range and immediately dereferences the `end()` iterator, which
is undefined behavior; the embedding records that no defined result exists
(`none`), and no EmptyBook error value exists anywhere in the code. -/
theorem c3_empty_book_no_result :
    (OrderBook.mk "9128283H1" [] [⟨101, 5, .OFFER⟩]).BestBidOffer = none ∧
    (OrderBook.mk "9128283H1" [⟨100, 10, .BID⟩] []).BestBidOffer = none ∧
    (OrderBook.mk "9128283H1" [] []).BestBidOffer = none := by
  exact ⟨rfl, rfl, rfl⟩

theorem valAt_nil (r : ℚ) : valAt r [] = 0 := rfl

theorem valAt_cons (r : ℚ) (e : ℚ × ℤ) (m : List (ℚ × ℤ)) :
    valAt r (e :: m) = (if e.1 = r then e.2 else 0) + valAt r m := by
  by_cases h : e.1 = r <;> simp [valAt, List.filter_cons, h]

theorem aggKeys_aggInsert (p : ℚ) (q : ℤ) (m : List (ℚ × ℤ)) :
    aggKeys (aggInsert p q m) = if p ∈ aggKeys m then aggKeys m else aggKeys m ++ [p] := by
  induction m with
  | nil => simp [aggInsert, aggKeys]
  | cons a rest ih =>
    by_cases h : a.1 = p
    · simp [aggInsert, h, aggKeys]
    · have hne : ¬ (p = a.1) := fun he => h he.symm
      simp only [aggInsert, if_neg h, aggKeys, List.map_cons] at ih ⊢
      rw [ih]
      by_cases hm : p ∈ List.map Prod.fst rest
      · simp [hm, hne]
      · simp [hm, hne]

theorem valAt_aggInsert (r p : ℚ) (q : ℤ) (m : List (ℚ × ℤ)) :
    valAt r (aggInsert p q m) = if r = p then valAt r m + q else valAt r m := by
  induction m with
  | nil =>
    by_cases h : r = p
    · simp [aggInsert, valAt_cons, valAt_nil, h]
    · have hne : ¬ (p = r) := fun he => h he.symm
      simp [aggInsert, valAt_cons, valAt_nil, h, hne]
  | cons a rest ih =>
    by_cases hap : a.1 = p
    · simp only [aggInsert, if_pos hap, valAt_cons]
      by_cases hr : r = p
      · have har : a.1 = r := by rw [hap, hr]
        simp only [if_pos hr, if_pos har]
        ring
      · have har : ¬ (a.1 = r) := by rw [hap]; exact fun he => hr he.symm
        simp [if_neg hr, if_neg har]
    · simp only [aggInsert, if_neg hap, valAt_cons, ih]
      by_cases hr : r = p
      · simp only [if_pos hr]
        ring
      · simp only [if_neg hr]

theorem valAt_eq_zero_of_not_mem {p : ℚ} {m : List (ℚ × ℤ)} (h : p ∉ aggKeys m) :
    valAt p m = 0 := by
  induction m with
  | nil => rfl
  | cons a rest ih =>
    have ha : ¬ (a.1 = p) := fun he => h (by simp [aggKeys, he])
    have hrest : p ∉ aggKeys rest := fun hr => h (by simp [aggKeys] at hr ⊢; exact Or.inr hr)
    rw [valAt_cons, if_neg ha, ih hrest, add_zero]

theorem aggKeys_nodup_aggInsert (p : ℚ) (q : ℤ) {m : List (ℚ × ℤ)}
    (h : (aggKeys m).Nodup) : (aggKeys (aggInsert p q m)).Nodup := by
  rw [aggKeys_aggInsert]
  by_cases hm : p ∈ aggKeys m
  · simp [hm, h]
  · simp [hm, h, List.nodup_append]

theorem aggKeys_nodup_foldl (stack : List Order) :
    ∀ m, (aggKeys m).Nodup → (aggKeys (stack.foldl aggStep m)).Nodup := by
  induction stack with
  | nil => intro m h; exact h
  | cons o os ih => intro m h; exact ih _ (aggKeys_nodup_aggInsert _ _ h)

theorem sumQtyAt_cons (r : ℚ) (o : Order) (os : List Order) :
    sumQtyAt r (o :: os) = (if o.price = r then o.quantity else 0) + sumQtyAt r os := by
  by_cases h : o.price = r <;> simp [sumQtyAt, List.filter_cons, h]

theorem valAt_foldl (stack : List Order) :
    ∀ (m : List (ℚ × ℤ)) (r : ℚ),
      valAt r (stack.foldl aggStep m) = valAt r m + sumQtyAt r stack := by
  induction stack with
  | nil => intro m r; simp [sumQtyAt, valAt]
  | cons o os ih =>
    intro m r
    rw [List.foldl_cons, ih, sumQtyAt_cons]
    show valAt r (aggInsert o.price o.quantity m) + _ = _
    rw [valAt_aggInsert]
    by_cases h : r = o.price
    · rw [if_pos h, if_pos h.symm]
      ring
    · rw [if_neg h, if_neg (fun he => h he.symm)]
      ring

theorem mem_aggKeys_foldl (stack : List Order) :
    ∀ (m : List (ℚ × ℤ)) (r : ℚ),
      r ∈ aggKeys (stack.foldl aggStep m) ↔ r ∈ aggKeys m ∨ ∃ o ∈ stack, o.price = r := by
  induction stack with
  | nil => intro m r; simp
  | cons o os ih =>
    intro m r
    rw [List.foldl_cons]
    show r ∈ aggKeys (os.foldl aggStep (aggInsert o.price o.quantity m)) ↔ _
    rw [ih, aggKeys_aggInsert]
    by_cases hm : o.price ∈ aggKeys m
    · rw [if_pos hm]
      constructor
      · rintro (h | ⟨o2, ho2, hp⟩)
        · exact Or.inl h
        · exact Or.inr ⟨o2, List.mem_cons_of_mem o ho2, hp⟩
      · rintro (h | ⟨o2, ho2, hp⟩)
        · exact Or.inl h
        · rcases List.mem_cons.mp ho2 with rfl | ho2
          · exact Or.inl (hp ▸ hm)
          · exact Or.inr ⟨o2, ho2, hp⟩
    · rw [if_neg hm]
      constructor
      · rintro (hr | ⟨o2, ho2, hp⟩)
        · rcases List.mem_append.mp hr with h | h
          · exact Or.inl h
          · exact Or.inr ⟨o, List.mem_cons_self o os, (List.mem_singleton.mp h).symm⟩
        · exact Or.inr ⟨o2, List.mem_cons_of_mem o ho2, hp⟩
      · rintro (h | ⟨o2, ho2, hp⟩)
        · exact Or.inl (List.mem_append.mpr (Or.inl h))
        · rcases List.mem_cons.mp ho2 with rfl | ho2
          · exact Or.inl (List.mem_append.mpr (Or.inr (List.mem_singleton.mpr hp.symm)))
          · exact Or.inr ⟨o2, ho2, hp⟩

theorem aggKeys_cons (e : ℚ × ℤ) (m : List (ℚ × ℤ)) :
    aggKeys (e :: m) = e.1 :: aggKeys m := rfl

theorem valAt_eq_of_mem {m : List (ℚ × ℤ)} (hnd : (aggKeys m).Nodup) :
    ∀ {p : ℚ} {q : ℤ}, (p, q) ∈ m → valAt p m = q := by
  induction m with
  | nil => intro p q hm; cases hm
  | cons a rest ih =>
    intro p q hm
    rw [aggKeys_cons] at hnd
    have hnd2 := List.nodup_cons.mp hnd
    rcases List.mem_cons.mp hm with rfl | hm2
    · rw [valAt_cons, if_pos rfl, valAt_eq_zero_of_not_mem hnd2.1, add_zero]
    · have ha : ¬ (a.1 = p) := by
        intro he
        exact hnd2.1 (he ▸ List.mem_map_of_mem Prod.fst hm2)
      rw [valAt_cons, if_neg ha, ih hnd2.2 hm2, zero_add]

theorem aggInsert_of_not_mem {p : ℚ} (q : ℤ) {m : List (ℚ × ℤ)} (h : p ∉ aggKeys m) :
    aggInsert p q m = m ++ [(p, q)] := by
  induction m with
  | nil => rfl
  | cons a rest ih =>
    have ha : ¬ (a.1 = p) := fun he => h (by simp [aggKeys, he])
    have hrest : p ∉ aggKeys rest := fun hr => h (by simp [aggKeys] at hr ⊢; exact Or.inr hr)
    rw [aggInsert, if_neg ha, ih hrest, List.cons_append]

theorem foldl_aggStep_of_fresh (stack : List Order) :
    ∀ m : List (ℚ × ℤ), (∀ o ∈ stack, o.price ∉ aggKeys m) →
      (stack.map Order.price).Nodup →
      stack.foldl aggStep m = m ++ stack.map (fun o => (o.price, o.quantity)) := by
  induction stack with
  | nil => intro m _ _; simp
  | cons o os ih =>
    intro m hfresh hnd
    rw [List.map_cons] at hnd
    have hnd2 := List.nodup_cons.mp hnd
    rw [List.foldl_cons]
    have h1 : aggStep m o = m ++ [(o.price, o.quantity)] :=
      aggInsert_of_not_mem _ (hfresh o (List.mem_cons_self o os))
    rw [h1, ih (m ++ [(o.price, o.quantity)]) ?_ hnd2.2]
    · simp
    · intro o2 ho2
      have h2 : o2.price ∉ aggKeys m := hfresh o2 (List.mem_cons_of_mem o ho2)
      have h3 : o2.price ≠ o.price := by
        intro he
        exact hnd2.1 (he ▸ List.mem_map_of_mem Order.price ho2)
      intro hmem
      have : aggKeys (m ++ [(o.price, o.quantity)]) = aggKeys m ++ [o.price] := by
        simp [aggKeys]
      rw [this] at hmem
      rcases List.mem_append.mp hmem with h | h
      · exact h2 h
      · exact h3 (List.mem_singleton.mp h)

theorem aggregateStack_map_price (side : PricingSide) (stack : List Order) :
    (aggregateStack side stack).map Order.price = aggKeys (aggPairs stack) := by
  simp [aggregateStack, aggKeys, List.map_map, Function.comp]

theorem aggregateStack_price_nodup (side : PricingSide) (stack : List Order) :
    ((aggregateStack side stack).map Order.price).Nodup := by
  rw [aggregateStack_map_price]
  exact aggKeys_nodup_foldl stack [] (by simp [aggKeys])

theorem aggregateStack_mem (side : PricingSide) (stack : List Order) :
    ∀ o ∈ aggregateStack side stack, o.side = side ∧ o.quantity = sumQtyAt o.price stack := by
  intro o ho
  rcases List.mem_map.mp ho with ⟨e, he, rfl⟩
  refine ⟨rfl, ?_⟩
  have hnd : (aggKeys (aggPairs stack)).Nodup := aggKeys_nodup_foldl stack [] (by simp [aggKeys])
  have hv : valAt e.1 (aggPairs stack) = e.2 := valAt_eq_of_mem hnd he
  have hf : valAt e.1 (aggPairs stack) = valAt e.1 [] + sumQtyAt e.1 stack :=
    valAt_foldl stack [] e.1
  rw [valAt_nil, zero_add] at hf
  show e.2 = sumQtyAt e.1 stack
  rw [← hv, hf]

theorem aggregateStack_price_set (side : PricingSide) (stack : List Order) (p : ℚ) :
    (∃ o ∈ stack, o.price = p) ↔ ∃ o ∈ aggregateStack side stack, o.price = p := by
  have hkeys : p ∈ aggKeys (aggPairs stack) ↔ p ∈ aggKeys ([] : List (ℚ × ℤ)) ∨
      ∃ o ∈ stack, o.price = p := mem_aggKeys_foldl stack [] p
  simp only [aggKeys, List.map_nil, List.not_mem_nil, false_or] at hkeys
  rw [← hkeys]
  constructor
  · intro hp
    rcases List.mem_map.mp hp with ⟨e, he, rfl⟩
    exact ⟨⟨e.1, e.2, side⟩, List.mem_map_of_mem _ he, rfl⟩
  · rintro ⟨o, ho, rfl⟩
    rcases List.mem_map.mp ho with ⟨e, he, rfl⟩
    exact List.mem_map_of_mem Prod.fst he

theorem aggregateStack_idem (side : PricingSide) (stack : List Order) :
    aggregateStack side (aggregateStack side stack) = aggregateStack side stack := by
  have hside := aggregateStack_mem side stack
  have hnodup := aggregateStack_price_nodup side stack
  conv_lhs => rw [aggregateStack, aggPairs]
  rw [foldl_aggStep_of_fresh (aggregateStack side stack) []
    (by intro o _; simp [aggKeys]) hnodup]
  rw [List.nil_append, List.map_map]
  have : ∀ o ∈ aggregateStack side stack,
      ((fun e => Order.mk e.1 e.2 side) ∘ fun o => (o.price, o.quantity)) o = id o := by
    intro o ho
    rcases o with ⟨p, q, sd⟩
    have := (hside _ ho).1
    simp only [Function.comp, id]
    rw [show sd = side from this]
  rw [List.map_congr_left this, List.map_id]

/-- C8: the depth aggregation maps each stack to one order per distinct
price whose quantity is the summed quantity at that price (sides are
preserved, the aggregated price list has no duplicates, and the aggregated
stack covers exactly the prices of the input stack), and it is idempotent:
re-aggregating an aggregated stack — and re-applying `AggregateDepth` to an
aggregated book — is the identity. -/
theorem aggregateStack_of_nodup (side : PricingSide) (stack : List Order)
    (hnd : (stack.map Order.price).Nodup) (hside : ∀ o ∈ stack, o.side = side) :
    aggregateStack side stack = stack := by
  rw [aggregateStack, aggPairs, foldl_aggStep_of_fresh stack [] (by simp [aggKeys]) hnd,
    List.nil_append, List.map_map]
  have : ∀ o ∈ stack,
      ((fun e => Order.mk e.1 e.2 side) ∘ fun o => (o.price, o.quantity)) o = id o := by
    intro o ho
    rcases o with ⟨p, q, sd⟩
    have := hside _ ho
    simp only [Function.comp, id]
    rw [show sd = side from this]
  rw [List.map_congr_left this, List.map_id]

/-- C8: the depth aggregation maps each stack to one order per distinct
price whose quantity is the summed quantity at that price (sides are
preserved, the aggregated price list has no duplicates, and the aggregated
stack covers exactly the prices of the input stack), and it is idempotent:
a stack whose prices are already pairwise distinct is aggregated to itself,
and re-applying the aggregation — also at the level of `AggregateDepth` on
a whole book — is the identity. -/
theorem c8_aggregation_correct_and_idem :
    (∀ (side : PricingSide) (stack : List Order),
      ((aggregateStack side stack).map Order.price).Nodup ∧
      (∀ o ∈ aggregateStack side stack, o.side = side ∧ o.quantity = sumQtyAt o.price stack) ∧
      (∀ p : ℚ, (∃ o ∈ stack, o.price = p) ↔ ∃ o ∈ aggregateStack side stack, o.price = p) ∧
      aggregateStack side (aggregateStack side stack) = aggregateStack side stack) ∧
    (∀ (side : PricingSide) (stack : List Order), (stack.map Order.price).Nodup →
      (∀ o ∈ stack, o.side = side) → aggregateStack side stack = stack) ∧
    (∀ b : OrderBook, AggregateDepth (AggregateDepth b) = AggregateDepth b) := by
  refine ⟨fun side stack => ⟨aggregateStack_price_nodup side stack, aggregateStack_mem side stack,
    aggregateStack_price_set side stack, aggregateStack_idem side stack⟩,
    aggregateStack_of_nodup, fun b => ?_⟩
  rcases b with ⟨pid, bids, offers⟩
  simp only [AggregateDepth]
  rw [aggregateStack_idem, aggregateStack_idem]

/-- C8, witness: aggregating a concrete already-aggregated two-level bid
stack leaves it unchanged. -/
theorem c8_aggregation_correct_and_idem_witness :
    aggregateStack .BID [⟨100, 10, .BID⟩, ⟨99, 5, .BID⟩] = [⟨100, 10, .BID⟩, ⟨99, 5, .BID⟩] :=
  c8_aggregation_correct_and_idem.2.1 .BID [⟨100, 10, .BID⟩, ⟨99, 5, .BID⟩]
    (by decide) (by decide)

theorem algoExecuteOrder_tight_spec (st : AlgoExecutionServiceState) (book : OrderBook)
    (orderId parentOrderId : String) (bo : BidOffer)
    (h : book.BestBidOffer = some bo)
    (ht : bo.offerOrder.price - bo.bidOrder.price ≤ 1 / 128) :
    ∃ st2 ae,
      AlgoExecutionService.AlgoExecuteOrder st book orderId parentOrderId = some (st2, [ae]) ∧
      st2.count = st.count + 1 ∧
      (st2.algoExecutionData = fun k =>
        if k = book.product then some ae else st.algoExecutionData k) ∧
      ae.executionOrder.side = some (if st.count % 2 = 0 then .BID else .OFFER) ∧
      ae.executionOrder.price =
        some (if st.count % 2 = 0 then bo.offerOrder.price else bo.bidOrder.price) ∧
      ae.executionOrder.visibleQuantity =
        some (if st.count % 2 = 0 then bo.bidOrder.quantity else bo.offerOrder.quantity) ∧
      ae.executionOrder.orderType = .MARKET ∧
      ae.executionOrder.hiddenQuantity = 0 ∧
      ae.executionOrder.isChildOrder = false := by
  by_cases hc : st.count % 2 = 0
  · refine ⟨⟨fun k => if k = book.product then
        some ⟨⟨book.product, some .BID, orderId, .MARKET, some bo.offerOrder.price,
          some bo.bidOrder.quantity, 0, parentOrderId, false⟩, .BROKERTEC⟩
        else st.algoExecutionData k, st.count + 1⟩,
      ⟨⟨book.product, some .BID, orderId, .MARKET, some bo.offerOrder.price,
        some bo.bidOrder.quantity, 0, parentOrderId, false⟩, .BROKERTEC⟩, ?_, rfl, rfl,
      by simp [hc], by simp [hc], by simp [hc], rfl, rfl, rfl⟩
    simp only [AlgoExecutionService.AlgoExecuteOrder, h]
    rw [if_pos ht, if_pos hc]
    rfl
  · refine ⟨⟨fun k => if k = book.product then
        some ⟨⟨book.product, some .OFFER, orderId, .MARKET, some bo.bidOrder.price,
          some bo.offerOrder.quantity, 0, parentOrderId, false⟩, .BROKERTEC⟩
        else st.algoExecutionData k, st.count + 1⟩,
      ⟨⟨book.product, some .OFFER, orderId, .MARKET, some bo.bidOrder.price,
        some bo.offerOrder.quantity, 0, parentOrderId, false⟩, .BROKERTEC⟩, ?_, rfl, rfl,
      by simp [hc], by simp [hc], by simp [hc], rfl, rfl, rfl⟩
    simp only [AlgoExecutionService.AlgoExecuteOrder, h]
    rw [if_pos ht, if_neg hc]
    rfl

/-- C6: two consecutive triggers of the decisioning that both pass the
tightness threshold emit intents on opposite sides, and the side/price and
quantity follow the counter parity: an even counter buys (BID side) at the
best offer price with the best bid quantity, an odd counter sells (OFFER
side) at the best bid price with the best offer quantity. -/
theorem c6_alternation (st : AlgoExecutionServiceState) (book1 book2 : OrderBook)
    (id1 pid1 id2 pid2 : String) (bo1 bo2 : BidOffer)
    (h1 : book1.BestBidOffer = some bo1)
    (ht1 : bo1.offerOrder.price - bo1.bidOrder.price ≤ 1 / 128)
    (h2 : book2.BestBidOffer = some bo2)
    (ht2 : bo2.offerOrder.price - bo2.bidOrder.price ≤ 1 / 128) :
    ∃ st1 ae1 st2 ae2,
      AlgoExecutionService.AlgoExecuteOrder st book1 id1 pid1 = some (st1, [ae1]) ∧
      AlgoExecutionService.AlgoExecuteOrder st1 book2 id2 pid2 = some (st2, [ae2]) ∧
      ae1.executionOrder.side ≠ ae2.executionOrder.side ∧
      (st.count % 2 = 0 →
        ae1.executionOrder.side = some .BID ∧
        ae1.executionOrder.price = some bo1.offerOrder.price ∧
        ae1.executionOrder.visibleQuantity = some bo1.bidOrder.quantity) ∧
      (st.count % 2 ≠ 0 →
        ae1.executionOrder.side = some .OFFER ∧
        ae1.executionOrder.price = some bo1.bidOrder.price ∧
        ae1.executionOrder.visibleQuantity = some bo1.offerOrder.quantity) := by
  obtain ⟨st1, ae1, he1, hcount1, _, hside1, hprice1, hqty1, _, _, _⟩ :=
    algoExecuteOrder_tight_spec st book1 id1 pid1 bo1 h1 ht1
  obtain ⟨st2, ae2, he2, _, _, hside2, _, _, _, _, _⟩ :=
    algoExecuteOrder_tight_spec st1 book2 id2 pid2 bo2 h2 ht2
  rw [hcount1] at hside2
  refine ⟨st1, ae1, st2, ae2, he1, he2, ?_, ?_, ?_⟩
  · rw [hside1, hside2]
    by_cases hc : st.count % 2 = 0
    · have hc1 : ¬ ((st.count + 1) % 2 = 0) := by omega
      rw [if_pos hc, if_neg hc1]
      simp
    · have hc1 : (st.count + 1) % 2 = 0 := by omega
      rw [if_neg hc, if_pos hc1]
      simp
  · intro hc
    rw [hside1, if_pos hc, hprice1, if_pos hc, hqty1, if_pos hc]
    exact ⟨rfl, rfl, rfl⟩
  · intro hc
    rw [hside1, if_neg hc, hprice1, if_neg hc, hqty1, if_neg hc]
    exact ⟨rfl, rfl, rfl⟩

/-- C6, witness: the alternation theorem applied to a fresh service state
(counter 0) and two identical one-level books with zero spread. -/
theorem c6_alternation_witness :
    ∃ st1 ae1 st2 ae2,
      AlgoExecutionService.AlgoExecuteOrder ⟨fun _ => none, 0⟩
        (OrderBook.mk "9128283H1" [⟨100, 10, .BID⟩] [⟨100, 20, .OFFER⟩]) "A1" "P1" =
        some (st1, [ae1]) ∧
      AlgoExecutionService.AlgoExecuteOrder st1
        (OrderBook.mk "9128283H1" [⟨100, 10, .BID⟩] [⟨100, 20, .OFFER⟩]) "A2" "P2" =
        some (st2, [ae2]) ∧
      ae1.executionOrder.side ≠ ae2.executionOrder.side ∧
      ((0 : ℤ) % 2 = 0 →
        ae1.executionOrder.side = some .BID ∧
        ae1.executionOrder.price = some (100 : ℚ) ∧
        ae1.executionOrder.visibleQuantity = some (10 : ℤ)) ∧
      ((0 : ℤ) % 2 ≠ 0 →
        ae1.executionOrder.side = some .OFFER ∧
        ae1.executionOrder.price = some (100 : ℚ) ∧
        ae1.executionOrder.visibleQuantity = some (20 : ℤ)) :=
  c6_alternation ⟨fun _ => none, 0⟩ _ _ "A1" "P1" "A2" "P2"
    ⟨⟨100, 10, .BID⟩, ⟨100, 20, .OFFER⟩⟩ ⟨⟨100, 10, .BID⟩, ⟨100, 20, .OFFER⟩⟩
    rfl (by norm_num) rfl (by norm_num)

/-- C1 (code bug shown at the failing input): on a book whose spread 1/64
exceeds the 1/128 threshold, `AlgoExecuteOrder` nevertheless stores an
algo-execution record under the product key and delivers exactly that
record to the listeners — there is no early return; the order is built
from the locals the guard left unassigned, so its side, price and visible
quantity are indeterminate (the claim instead requires that nothing be
stored and no listener be notified). -/
theorem c1_wide_spread_still_emits :
    ∃ st2 ae,
      AlgoExecutionService.AlgoExecuteOrder ⟨fun _ => none, 0⟩
        (OrderBook.mk "9128283H1" [⟨100, 10, .BID⟩] [⟨6401/64, 20, .OFFER⟩]) "OID" "PID" =
        some (st2, [ae]) ∧
      st2.algoExecutionData "9128283H1" = some ae ∧
      ae.executionOrder.side = none ∧
      ae.executionOrder.price = none ∧
      ae.executionOrder.visibleQuantity = none ∧
      ae.executionOrder.orderId = "OID" ∧
      st2.count = 1 := by
  have hbo : (OrderBook.mk "9128283H1" [⟨100, 10, .BID⟩] [⟨6401/64, 20, .OFFER⟩]).BestBidOffer =
      some ⟨⟨100, 10, .BID⟩, ⟨6401/64, 20, .OFFER⟩⟩ := rfl
  have hsp : ¬ ((6401 : ℚ)/64 - 100 ≤ 1 / 128) := by norm_num
  refine ⟨⟨fun k => if k = "9128283H1" then
      some ⟨⟨"9128283H1", none, "OID", .MARKET, none, none, 0, "PID", false⟩, .BROKERTEC⟩
      else none, 1⟩,
    ⟨⟨"9128283H1", none, "OID", .MARKET, none, none, 0, "PID", false⟩, .BROKERTEC⟩,
    ?_, by simp, rfl, rfl, rfl, rfl, rfl⟩
  simp only [AlgoExecutionService.AlgoExecuteOrder, hbo]
  rw [if_neg hsp]
  rfl

/-- C10: `BookTrade` hands the trade to every registered listener but leaves
the keyed trade store exactly as it was; the execution-listener path
(`ProcessAdd` building a trade from an execution order and publishing it via
`BookTrade`) therefore never changes the store, and `GetData` answers
afterwards exactly as before — only `OnMessage` inserts or updates entries.
-/
theorem c10_bookTrade_store_frame :
    (∀ (m : TradeMap) (t : Trade), TradeBookingService.BookTrade m t = (m, [t])) ∧
    (∀ (m : TradeMap) (count : ℤ) (order : ExecutionOrder),
      (TradeBookingServiceListener.ProcessAdd m count order).1.1 = m ∧
      (TradeBookingServiceListener.ProcessAdd m count order).2 = count + 1 ∧
      ∀ key, TradeBookingService.GetData
          (TradeBookingServiceListener.ProcessAdd m count order).1.1 key =
        TradeBookingService.GetData m key) ∧
    (∀ (m : TradeMap) (t : Trade) (key : String),
      (TradeBookingService.OnMessage m t).1 key =
        if key = t.tradeId then some t else m key) ∧
    (∀ (m : TradeMap) (t : Trade), (TradeBookingService.OnMessage m t).2 = [t]) :=
  ⟨fun _ _ => rfl, fun _ _ _ => ⟨rfl, rfl, fun _ => rfl⟩, fun _ _ _ => rfl, fun _ _ => rfl⟩

/-- C5, counterexample: `MarketDataService::GetData` at a key absent from
its store does not fail with NotFound — it inserts a fresh empty order book
under the key and returns it. -/
theorem c5_getdata_counterexample :
    MarketDataService.GetData (fun _ => none) "9128283H1" =
      .ok (mdUpdate (fun _ => none) "9128283H1" (emptyOrderBook "9128283H1"),
        emptyOrderBook "9128283H1") ∧
    mdUpdate (fun _ => none) "9128283H1" (emptyOrderBook "9128283H1") "9128283H1" =
      some (emptyOrderBook "9128283H1") ∧
    ∀ e : SvcError, MarketDataService.GetData (fun _ => none) "9128283H1" ≠ .error e := by
  refine ⟨rfl, by simp [mdUpdate], fun e h => ?_⟩
  rw [show MarketDataService.GetData (fun _ => none) "9128283H1" =
    .ok (mdUpdate (fun _ => none) "9128283H1" (emptyOrderBook "9128283H1"),
      emptyOrderBook "9128283H1") from rfl] at h
  exact Except.noConfusion h

/-- C5 (amended): the pricing, trade-booking and algo-execution services
fail with NotFound (`Key not found`) on a key absent from their stores, but
`MarketDataService::GetData` does not: for an absent key naming a known
product it silently inserts a fresh empty book and returns it. -/
theorem c5_getdata_not_found :
    (∀ (m : PriceMap) (key : String), m key = none →
      PricingService.GetData m key = .error .notFound) ∧
    (∀ (m : TradeMap) (key : String), m key = none →
      TradeBookingService.GetData m key = .error .notFound) ∧
    (∀ (st : AlgoExecutionServiceState) (key : String), st.algoExecutionData key = none →
      AlgoExecutionService.GetData st key = .error .notFound) ∧
    (∀ (m : OrderBookMap) (key : String), m key = none → key ∈ knownCusips →
      MarketDataService.GetData m key =
        .ok (mdUpdate m key (emptyOrderBook key), emptyOrderBook key)) := by
  refine ⟨?_, ?_, ?_, ?_⟩
  · intro m key h
    simp [PricingService.GetData, h]
  · intro m key h
    simp [TradeBookingService.GetData, h]
  · intro st key h
    simp [AlgoExecutionService.GetData, h]
  · intro m key h hk
    simp only [MarketDataService.GetData, h, QueryProduct, if_pos hk]
    rfl

/-- C5, witness: the NotFound theorem applied to empty stores at concrete
keys. -/
theorem c5_getdata_not_found_witness :
    PricingService.GetData (fun _ => none) "9128283H1" = .error .notFound ∧
    TradeBookingService.GetData (fun _ => none) "T1" = .error .notFound ∧
    AlgoExecutionService.GetData ⟨fun _ => none, 0⟩ "9128283H1" = .error .notFound ∧
    MarketDataService.GetData (fun _ => none) "9128283H1" =
      .ok (mdUpdate (fun _ => none) "9128283H1" (emptyOrderBook "9128283H1"),
        emptyOrderBook "9128283H1") :=
  ⟨c5_getdata_not_found.1 _ "9128283H1" rfl,
   c5_getdata_not_found.2.1 _ "T1" rfl,
   c5_getdata_not_found.2.2.1 ⟨fun _ => none, 0⟩ "9128283H1" rfl,
   c5_getdata_not_found.2.2.2 _ "9128283H1" rfl (by decide)⟩

/-- Evaluation of one Subscribe iteration when the product already has a
stored book. -/
theorem subscribeStep_present (m : OrderBookMap) (r : MarketDataRecord) (book0 : OrderBook)
    (hm : m r.product = some book0) :
    MarketDataConnector.SubscribeStep m r =
      .ok
        (mdUpdate (mdUpdate m r.product
            (AggregateDepth ⟨book0.product,
              book0.bidStack ++ r.levels.map fun lv => ⟨lv.1.1, lv.1.2, .BID⟩,
              book0.offerStack ++ r.levels.map fun lv => ⟨lv.2.1, lv.2.2, .OFFER⟩⟩))
          (AggregateDepth ⟨book0.product,
              book0.bidStack ++ r.levels.map fun lv => ⟨lv.1.1, lv.1.2, .BID⟩,
              book0.offerStack ++ r.levels.map fun lv => ⟨lv.2.1, lv.2.2, .OFFER⟩⟩).product
          (AggregateDepth ⟨book0.product,
              book0.bidStack ++ r.levels.map fun lv => ⟨lv.1.1, lv.1.2, .BID⟩,
              book0.offerStack ++ r.levels.map fun lv => ⟨lv.2.1, lv.2.2, .OFFER⟩⟩),
         [AggregateDepth ⟨book0.product,
              book0.bidStack ++ r.levels.map fun lv => ⟨lv.1.1, lv.1.2, .BID⟩,
              book0.offerStack ++ r.levels.map fun lv => ⟨lv.2.1, lv.2.2, .OFFER⟩⟩]) := by
  simp only [MarketDataConnector.SubscribeStep, MarketDataService.GetData, hm]
  rfl

/-- Evaluation of one Subscribe iteration when the product has no stored
book yet and its id is a known CUSIP: `GetData` first inserts an empty
book. -/
theorem subscribeStep_absent (m : OrderBookMap) (r : MarketDataRecord)
    (hm : m r.product = none) (hk : r.product ∈ knownCusips) :
    MarketDataConnector.SubscribeStep m r =
      .ok
        (mdUpdate (mdUpdate (mdUpdate m r.product (emptyOrderBook r.product)) r.product
            (AggregateDepth ⟨(emptyOrderBook r.product).product,
              (emptyOrderBook r.product).bidStack ++
                r.levels.map fun lv => ⟨lv.1.1, lv.1.2, .BID⟩,
              (emptyOrderBook r.product).offerStack ++
                r.levels.map fun lv => ⟨lv.2.1, lv.2.2, .OFFER⟩⟩))
          (AggregateDepth ⟨(emptyOrderBook r.product).product,
              (emptyOrderBook r.product).bidStack ++
                r.levels.map fun lv => ⟨lv.1.1, lv.1.2, .BID⟩,
              (emptyOrderBook r.product).offerStack ++
                r.levels.map fun lv => ⟨lv.2.1, lv.2.2, .OFFER⟩⟩).product
          (AggregateDepth ⟨(emptyOrderBook r.product).product,
              (emptyOrderBook r.product).bidStack ++
                r.levels.map fun lv => ⟨lv.1.1, lv.1.2, .BID⟩,
              (emptyOrderBook r.product).offerStack ++
                r.levels.map fun lv => ⟨lv.2.1, lv.2.2, .OFFER⟩⟩),
         [AggregateDepth ⟨(emptyOrderBook r.product).product,
              (emptyOrderBook r.product).bidStack ++
                r.levels.map fun lv => ⟨lv.1.1, lv.1.2, .BID⟩,
              (emptyOrderBook r.product).offerStack ++
                r.levels.map fun lv => ⟨lv.2.1, lv.2.2, .OFFER⟩⟩]) := by
  simp only [MarketDataConnector.SubscribeStep, MarketDataService.GetData, hm, QueryProduct,
    if_pos hk]
  rfl

/-- Evaluation of one Subscribe iteration when the product has no stored
book and its id is not a known CUSIP: `QueryProduct` throws while `GetData`
builds the fresh book. -/
theorem subscribeStep_fails_of_unknown (m : OrderBookMap) (r : MarketDataRecord)
    (hm : m r.product = none) (hk : r.product ∉ knownCusips) :
    MarketDataConnector.SubscribeStep m r = .error .unknownCusip := by
  simp only [MarketDataConnector.SubscribeStep, MarketDataService.GetData, hm, QueryProduct,
    if_neg hk]
  rfl

/-- C2 (amended): processing an order-book feed record does not replace the
stored stacks — it appends the record's per-level orders to the existing
(already aggregated) stacks of the book and re-aggregates by price, so
quantities from earlier updates at the same price accumulate.  The stored
and published book is the aggregate of (old stacks ++ new orders); keys
other than the record's product and the stored book's own product id are
untouched. -/
theorem c2_update_appends_and_aggregates (m : OrderBookMap) (r : MarketDataRecord)
    (m2 : OrderBookMap) (pubs : List OrderBook)
    (h : MarketDataConnector.SubscribeStep m r = .ok (m2, pubs)) :
    ∃ book0 : OrderBook,
      (m r.product = some book0 ∨ (m r.product = none ∧ book0 = emptyOrderBook r.product)) ∧
      m2 r.product = some (AggregateDepth ⟨book0.product,
        book0.bidStack ++ r.levels.map fun lv => ⟨lv.1.1, lv.1.2, .BID⟩,
        book0.offerStack ++ r.levels.map fun lv => ⟨lv.2.1, lv.2.2, .OFFER⟩⟩) ∧
      pubs = [AggregateDepth ⟨book0.product,
        book0.bidStack ++ r.levels.map fun lv => ⟨lv.1.1, lv.1.2, .BID⟩,
        book0.offerStack ++ r.levels.map fun lv => ⟨lv.2.1, lv.2.2, .OFFER⟩⟩] ∧
      ∀ k, k ≠ r.product → k ≠ book0.product → m2 k = m k := by
  rcases hm : m r.product with _ | book0
  · have hk : r.product ∈ knownCusips := by
      by_contra hk
      rw [subscribeStep_fails_of_unknown m r hm hk] at h
      exact Except.noConfusion h
    rw [subscribeStep_absent m r hm hk] at h
    have hpair := (Except.ok.injEq _ _).mp h
    have hm2 : _ = m2 := congrArg Prod.fst hpair
    have hpubs : _ = pubs := congrArg Prod.snd hpair
    refine ⟨emptyOrderBook r.product, Or.inr ⟨rfl, rfl⟩, ?_, hpubs.symm, ?_⟩
    · rw [← hm2]
      by_cases hp : r.product = (AggregateDepth ⟨(emptyOrderBook r.product).product,
          (emptyOrderBook r.product).bidStack ++ r.levels.map fun lv => ⟨lv.1.1, lv.1.2, .BID⟩,
          (emptyOrderBook r.product).offerStack ++
            r.levels.map fun lv => ⟨lv.2.1, lv.2.2, .OFFER⟩⟩).product
      · simp [mdUpdate, ← hp]
      · simp [mdUpdate, hp]
    · intro k hk1 hk2
      have hprod : (AggregateDepth ⟨(emptyOrderBook r.product).product,
          (emptyOrderBook r.product).bidStack ++ r.levels.map fun lv => ⟨lv.1.1, lv.1.2, .BID⟩,
          (emptyOrderBook r.product).offerStack ++
            r.levels.map fun lv => ⟨lv.2.1, lv.2.2, .OFFER⟩⟩).product = r.product := rfl
      rw [← hm2]
      simp [mdUpdate, hk1, hprod]
  · rw [subscribeStep_present m r book0 hm] at h
    have hpair := (Except.ok.injEq _ _).mp h
    have hm2 : _ = m2 := congrArg Prod.fst hpair
    have hpubs : _ = pubs := congrArg Prod.snd hpair
    refine ⟨book0, Or.inl rfl, ?_, hpubs.symm, ?_⟩
    · rw [← hm2]
      by_cases hp : r.product = (AggregateDepth ⟨book0.product,
          book0.bidStack ++ r.levels.map fun lv => ⟨lv.1.1, lv.1.2, .BID⟩,
          book0.offerStack ++ r.levels.map fun lv => ⟨lv.2.1, lv.2.2, .OFFER⟩⟩).product
      · simp [mdUpdate, ← hp]
      · simp [mdUpdate, hp]
    · intro k hk1 hk2
      have hprod : (AggregateDepth ⟨book0.product,
          book0.bidStack ++ r.levels.map fun lv => ⟨lv.1.1, lv.1.2, .BID⟩,
          book0.offerStack ++ r.levels.map fun lv => ⟨lv.2.1, lv.2.2, .OFFER⟩⟩).product =
          book0.product := rfl
      rw [← hm2]
      simp [mdUpdate, hk1, hprod, hk2]

/-- C2, counterexample: feeding the same one-level record twice for the same
instrument does not leave the book equal to the record's per-level orders —
the stored quantities double (10 becomes 20 on the bid, 20 becomes 40 on
the offer), because the stacks are appended to and re-aggregated rather
than replaced wholesale. -/
theorem c2_counterexample_accumulation :
    ∃ (m1 m2 : OrderBookMap) (p1 p2 : List OrderBook),
      MarketDataConnector.SubscribeStep (fun _ => none)
        ⟨"t", "9128283H1", [((100, 10), (101, 20))]⟩ = .ok (m1, p1) ∧
      MarketDataConnector.SubscribeStep m1
        ⟨"t", "9128283H1", [((100, 10), (101, 20))]⟩ = .ok (m2, p2) ∧
      (m1 "9128283H1").map OrderBook.bidStack = some [⟨100, 10, .BID⟩] ∧
      (m2 "9128283H1").map OrderBook.bidStack = some [⟨100, 20, .BID⟩] ∧
      (m2 "9128283H1").map OrderBook.offerStack = some [⟨101, 40, .OFFER⟩] ∧
      ¬ ([Order.mk 100 20 .BID] = [Order.mk 100 10 .BID]) := by
  refine ⟨_, _, _, _, rfl, rfl, ?_, ?_, ?_, by decide⟩ <;> decide

/-- C2, witness: the append-and-aggregate theorem applied to a first-seen
instrument and a concrete one-level record. -/
theorem c2_update_appends_and_aggregates_witness :
    ∃ (m2 : OrderBookMap) (pubs : List OrderBook),
      MarketDataConnector.SubscribeStep (fun _ => none)
        ⟨"t", "9128283H1", [((100, 10), (101, 20))]⟩ = .ok (m2, pubs) ∧
      ∃ book0 : OrderBook,
        ((fun _ => (none : Option OrderBook)) "9128283H1" = some book0 ∨
         ((fun _ => (none : Option OrderBook)) "9128283H1" = none ∧
          book0 = emptyOrderBook "9128283H1")) ∧
        m2 "9128283H1" = some (AggregateDepth ⟨book0.product,
          book0.bidStack ++ [⟨100, 10, .BID⟩],
          book0.offerStack ++ [⟨101, 20, .OFFER⟩]⟩) ∧
        pubs = [AggregateDepth ⟨book0.product,
          book0.bidStack ++ [⟨100, 10, .BID⟩],
          book0.offerStack ++ [⟨101, 20, .OFFER⟩]⟩] ∧
        ∀ k, k ≠ "9128283H1" → k ≠ book0.product → m2 k = (fun _ => none) k := by
  have h := subscribeStep_absent (fun _ => none)
    ⟨"t", "9128283H1", [((100, 10), (101, 20))]⟩ rfl (by decide)
  exact ⟨_, _, h, c2_update_appends_and_aggregates _ _ _ _ h⟩

/-- C9 (evaluated at the failing inputs): both inbound connectors stop at
the first malformed record, report its failure, process no later record,
and keep the state already built from the preceding well-formed records.
The trade connector run processes one good trade, then aborts on a record
with only three fields (the vector access past the end is modelled as the
`outOfRange` failure; in C++ it is undefined behavior), leaving the first
trade in the store and the third record unprocessed; the pricing connector
run behaves the same after its header skip; and a record with an
unparseable price aborts immediately with a format error, applying
nothing. -/
theorem c9_subscribe_failstop_prefix :
    (∃ (mf : TradeMap) (t1 : Trade),
      TradeBookingConnector.Subscribe (fun _ => none)
        [["9128283H1", "T1", "99-160", "TRSY1", "100", "BUY"],
         ["9128283L2", "T2", "99-001"],
         ["9128283H1", "T3", "99-160", "TRSY1", "5", "SELL"]] =
        ((mf, [t1]), some SvcError.outOfRange) ∧
      t1.tradeId = "T1" ∧
      mf "T1" = some t1 ∧
      mf "T3" = none ∧
      TradeBookingService.GetData mf "T3" = .error .notFound) ∧
    (∃ (pf : PriceMap) (p1 : Price),
      PricingConnector.Subscribe (fun _ => none)
        [["Timestamp", "CUSIP", "Bid", "Ask"],
         ["t1", "9128283H1", "99-160", "99-16+"],
         ["t2", "9128283L2", "99-001"]] =
        ((pf, [p1]), some SvcError.outOfRange) ∧
      p1.product = "9128283H1" ∧
      pf "9128283H1" = some p1 ∧
      pf "9128283L2" = none) ∧
    TradeBookingConnector.Subscribe (fun _ => none)
        [["9128283H1", "T1", "xx-xxx", "TRSY1", "100", "BUY"]] =
      ((fun _ => none, []), some SvcError.formatError) :=
  ⟨⟨_, _, rfl, rfl, rfl, rfl, rfl⟩, ⟨_, _, rfl, rfl, rfl, rfl⟩, rfl⟩

end TradingSystem
